import Mathlib

/-!
Shallow embedding of `drake/systems/n_ary_state.h` (class `NAryState`).

Modelling conventions:
* The Eigen dynamic column vector `combined_vector_` is a `List α` of scalars.
* A `UnitVector<ScalarType>` value is represented by its flattened Eigen
  column, i.e. a `List α` whose length equals the unit size; the C++ type
  system guarantees that length, so theorems about `append`/`set` carry the
  hypothesis `u.length = unit_size`.
* `std::size_t` quantities (row counts, indices) are `Nat`; `std::ptrdiff_t`
  (`count_`) is `Int`.  Widths are idealized: every quantity arising in a
  real execution is bounded by the storage size, far below 2^63, so no
  wrap-around is reachable and none is modelled.  In `get`/`set` the C++
  comparison `i < count_` converts `count_` to `std::size_t`; it is only
  evaluated when `unit_size_ != 0`, where `count_ >= 0` holds in every
  reachable state, making the conversion the identity; we model it as the
  integer comparison `(i : Int) < count_`.
* C++ exceptions (`std::domain_error`, `std::out_of_range`) are modelled
  with `Except`: a thrown exception is `.error e`, and since the throwing
  expressions in the source run before any member write, the error result
  carries no mutated state.
* `NAN` (the poison fill of the sized constructor) is an arbitrary
  distinguished scalar passed as the `nan` argument; the concrete scalar
  type `Scal` below provides an honest not-a-number element for witnesses.
-/

namespace DrakeNAry

/-- The exceptions thrown by `NAryState`: `std::out_of_range` from
`get`/`set`, and the two `std::domain_error` cases from the row/count
codec. -/
inductive Err where
  | outOfRange
  | nonMultipleRowCount
  | negativeCountForNonNullUnit
deriving DecidableEq, Repr

/-- Concrete scalar type used for witnesses: a numeric value or the
not-a-number poison value `NAN`. -/
inductive Scal where
  | nan
  | val (q : ℤ)
deriving DecidableEq, Repr

/-- The state of an `NAryState<ScalarType, UnitVector>` instance:
`unit_size_ : std::size_t`, `count_ : std::ptrdiff_t`, and the flat
storage `combined_vector_` (an Eigen dynamic column vector). -/
structure NAryState (α : Type) where
  unit_size_ : Nat
  count_ : Int
  combined_vector_ : List α
deriving DecidableEq, Repr

namespace NAryState

/-- `NAryState::unitCountFromRows(rows)`:
if `us > 0` then throw `std::domain_error` unless `rows % us == 0`,
else return `rows / us`; if `us == 0` return `-1`. -/
def unitCountFromRows (us : Nat) (rows : Nat) : Except Err Int :=
  if us > 0 then
    if rows % us ≠ 0 then
      .error .nonMultipleRowCount
    else
      .ok ((rows / us : Nat) : Int)
  else
    .ok (-1)

/-- `NAryState::rowsFromUnitCount(count)`:
if `count >= 0` return `count * us`; otherwise throw `std::domain_error`
when `us != 0`, and return `0` when `us == 0`. -/
def rowsFromUnitCount (us : Nat) (count : Int) : Except Err Nat :=
  if count ≥ 0 then
    .ok (count.toNat * us)
  else if us ≠ 0 then
    .error .negativeCountForNonNullUnit
  else
    .ok 0

/-- The default constructor `NAryState()`: `count_ = unitCountFromRows(0)`,
empty storage.  (`unitCountFromRows 0` never throws, but the model keeps
the `Except` plumbing of the source.) -/
def mkDefault (α : Type) (us : Nat) : Except Err (NAryState α) :=
  match unitCountFromRows us 0 with
  | .error e => .error e
  | .ok c => .ok ⟨us, c, []⟩

/-- The sized constructor `NAryState(std::ptrdiff_t count)`:
`count_ = unitCountFromRows(rowsFromUnitCount(count))` and storage
`EigenType::Constant(rowsFromUnitCount(count), 1, NAN)`. -/
def mkSized {α : Type} (nan : α) (us : Nat) (count : Int) :
    Except Err (NAryState α) :=
  match rowsFromUnitCount us count with
  | .error e => .error e
  | .ok rows =>
    match unitCountFromRows us rows with
    | .error e => .error e
    | .ok c => .ok ⟨us, c, List.replicate rows nan⟩

/-- The converting constructor `NAryState(const Eigen::MatrixBase& initial)`:
`count_ = unitCountFromRows(initial.rows())`, storage = `initial`. -/
def fromFlat {α : Type} (us : Nat) (v : List α) : Except Err (NAryState α) :=
  match unitCountFromRows us v.length with
  | .error e => .error e
  | .ok c => .ok ⟨us, c, v⟩

/-- `NAryState::count()`. -/
def count {α : Type} (s : NAryState α) : Int := s.count_

/-- `NAryState::size()`: the row count of `combined_vector_`. -/
def size {α : Type} (s : NAryState α) : Nat := s.combined_vector_.length

/-- `toEigen(const NAryState&)`: returns (a copy of) `combined_vector_`. -/
def toEigen {α : Type} (s : NAryState α) : List α := s.combined_vector_

/-- `NAryState::append(unit)`: no-op when `unit_size_ == 0`; otherwise
`conservativeResize` grows the storage by `unit_size_` rows preserving the
existing rows, `bottomRows(unit_size_) = toEigen(unit)` fills the new tail
with the flattened unit (`u`, of length `unit_size_`), and `++count_`. -/
def append {α : Type} (s : NAryState α) (u : List α) : NAryState α :=
  if s.unit_size_ = 0 then
    s
  else
    { s with
      count_ := s.count_ + 1,
      combined_vector_ := s.combined_vector_ ++ u }

/-- `NAryState::get(i)`: throw `std::out_of_range` unless
`unit_size_ == 0 || i < count_`; otherwise return the storage block
`[i*unit_size_, (i+1)*unit_size_)` (the flattened copy of the unit). -/
def get {α : Type} (s : NAryState α) (i : Nat) : Except Err (List α) :=
  if ¬(s.unit_size_ = 0 ∨ (i : Int) < s.count_) then
    .error .outOfRange
  else
    .ok ((s.combined_vector_.drop (i * s.unit_size_)).take s.unit_size_)

/-- `NAryState::set(i, unit)`: same bound check as `get`; on success
overwrite the storage block `[i*unit_size_, (i+1)*unit_size_)` with the
flattened unit `u` (of length `unit_size_`). -/
def set {α : Type} (s : NAryState α) (i : Nat) (u : List α) :
    Except Err (NAryState α) :=
  if ¬(s.unit_size_ = 0 ∨ (i : Int) < s.count_) then
    .error .outOfRange
  else
    .ok { s with
          combined_vector_ :=
            s.combined_vector_.take (i * s.unit_size_) ++ u ++
              s.combined_vector_.drop (i * s.unit_size_ + u.length) }

/-- `NAryState::operator=(rhs)`: `count_ = unitCountFromRows(rhs.rows())`
then `combined_vector_ = rhs`.  When `unitCountFromRows` throws, the throw
happens before either member is written, so the state is returned
unchanged together with the error. -/
def assign {α : Type} (s : NAryState α) (v : List α) :
    NAryState α × Option Err :=
  match unitCountFromRows s.unit_size_ v.length with
  | .error e => (s, some e)
  | .ok c => ({ s with count_ := c, combined_vector_ := v }, none)

/-- The states of an instantiation with unit size `us` reachable by any
sequence of public operations: the three constructors, `append`, `set`,
and assignment from a flat vector (on either its success or its error
path).  `get`, `size`, `count` and `toEigen` do not mutate. -/
inductive Reachable {α : Type} (nan : α) (us : Nat) : NAryState α → Prop where
  | ctorDefault (s : NAryState α) :
      mkDefault α us = .ok s → Reachable nan us s
  | ctorSized (c : Int) (s : NAryState α) :
      mkSized nan us c = .ok s → Reachable nan us s
  | ctorFlat (v : List α) (s : NAryState α) :
      fromFlat us v = .ok s → Reachable nan us s
  | opAppend (s : NAryState α) (u : List α) :
      Reachable nan us s → u.length = us → Reachable nan us (s.append u)
  | opSet (s : NAryState α) (i : Nat) (u : List α) (s' : NAryState α) :
      Reachable nan us s → u.length = us → s.set i u = .ok s' →
      Reachable nan us s'
  | opAssign (s : NAryState α) (v : List α) :
      Reachable nan us s → Reachable nan us (s.assign v).1

/-- The representation invariant maintained by every public operation:
the cached unit size is `us`; for a non-null unit, `count_` is
non-negative and the storage holds exactly `count_ * us` rows; for a null
unit, `count_` is the sentinel `-1`. -/
def Inv {α : Type} (us : Nat) (s : NAryState α) : Prop :=
  s.unit_size_ = us ∧
    (0 < us → 0 ≤ s.count_ ∧
      (s.combined_vector_.length : Int) = s.count_ * us) ∧
    (us = 0 → s.count_ = -1)

/-- Inversion for `unitCountFromRows`: the successful results. -/
theorem unitCountFromRows_ok_iff {us rows : Nat} {c : Int} :
    unitCountFromRows us rows = .ok c ↔
      ((0 < us ∧ rows % us = 0 ∧ c = (rows / us : Nat)) ∨ (us = 0 ∧ c = -1)) := by
  unfold unitCountFromRows
  split
  · rename_i hus
    split
    · rename_i hm
      simp only [reduceCtorEq, false_iff]
      rintro (⟨_, hm2, _⟩ | ⟨h0, _⟩)
      · exact hm hm2
      · omega
    · rename_i hm
      simp only [Except.ok.injEq]
      constructor
      · intro h
        exact Or.inl ⟨hus, by omega, h.symm⟩
      · rintro (⟨_, _, hc⟩ | ⟨h0, _⟩)
        · exact hc.symm
        · omega
  · rename_i hus
    simp only [Except.ok.injEq]
    constructor
    · intro h
      exact Or.inr ⟨by omega, h.symm⟩
    · rintro (⟨h0, _, _⟩ | ⟨_, hc⟩)
      · omega
      · exact hc.symm

/-- Inversion for `rowsFromUnitCount`: the successful results. -/
theorem rowsFromUnitCount_ok_iff {us : Nat} {c : Int} {r : Nat} :
    rowsFromUnitCount us c = .ok r ↔
      ((0 ≤ c ∧ r = c.toNat * us) ∨ (c < 0 ∧ us = 0 ∧ r = 0)) := by
  unfold rowsFromUnitCount
  split
  · rename_i hc
    simp only [Except.ok.injEq]
    constructor
    · intro h
      exact Or.inl ⟨hc, h.symm⟩
    · rintro (⟨_, hr⟩ | ⟨h0, _, _⟩)
      · exact hr.symm
      · omega
  · split
    · rename_i hc hus
      simp only [reduceCtorEq, false_iff]
      rintro (⟨h0, _⟩ | ⟨_, h0, _⟩)
      · omega
      · exact hus h0
    · rename_i hc hus
      simp only [Except.ok.injEq]
      constructor
      · intro h
        exact Or.inr ⟨by omega, by omega, h.symm⟩
      · rintro (⟨h0, _⟩ | ⟨_, _, hr⟩)
        · omega
        · exact hr.symm

/-- Inversion for the default constructor. -/
theorem mkDefault_ok_iff {α : Type} {us : Nat} {s : NAryState α} :
    mkDefault α us = .ok s ↔
      ∃ c, unitCountFromRows us 0 = .ok c ∧ s = ⟨us, c, []⟩ := by
  unfold mkDefault
  cases hu : unitCountFromRows us 0 with
  | error e => simp [hu]
  | ok c => simp [hu, eq_comm]

/-- Inversion for the sized constructor. -/
theorem mkSized_ok_iff {α : Type} {nan : α} {us : Nat} {c : Int}
    {s : NAryState α} :
    mkSized nan us c = .ok s ↔
      ∃ rows c', rowsFromUnitCount us c = .ok rows ∧
        unitCountFromRows us rows = .ok c' ∧
        s = ⟨us, c', List.replicate rows nan⟩ := by
  unfold mkSized
  cases hru : rowsFromUnitCount us c with
  | error e => simp [hru]
  | ok rows =>
    cases hcu : unitCountFromRows us rows with
    | error e => simp [hru, hcu]
    | ok c' => simp [hru, hcu, eq_comm]

/-- Inversion for the converting constructor. -/
theorem fromFlat_ok_iff {α : Type} {us : Nat} {v : List α} {s : NAryState α} :
    fromFlat us v = .ok s ↔
      ∃ c, unitCountFromRows us v.length = .ok c ∧ s = ⟨us, c, v⟩ := by
  unfold fromFlat
  cases hu : unitCountFromRows us v.length with
  | error e => simp [hu]
  | ok c => simp [hu, eq_comm]

/-- A state built directly over a flat vector whose length is a multiple of
the positive unit size satisfies the invariant. -/
theorem inv_of_ucfr {α : Type} {us : Nat} {c : Int} {v : List α}
    (hc : unitCountFromRows us v.length = .ok c) :
    Inv us (⟨us, c, v⟩ : NAryState α) := by
  rcases unitCountFromRows_ok_iff.mp hc with ⟨hus, hm, hcv⟩ | ⟨hus, hcv⟩
  · subst hcv
    refine ⟨rfl, ?_, ?_⟩
    · intro _
      constructor
      · show (0 : Int) ≤ ((v.length / us : Nat) : Int)
        positivity
      · show (v.length : Int) = ((v.length / us : Nat) : Int) * (us : Int)
        have hdm : v.length / us * us = v.length :=
          Nat.div_mul_cancel (Nat.dvd_of_mod_eq_zero hm)
        exact_mod_cast hdm.symm
    · intro h0
      omega
  · subst hcv hus
    exact ⟨rfl, fun h0 => absurd h0 (by omega), fun _ => rfl⟩

/-- Every reachable state satisfies the representation invariant. -/
theorem reachable_inv {α : Type} {nan : α} {us : Nat} {s : NAryState α}
    (h : Reachable nan us s) : Inv us s := by
  induction h with
  | ctorDefault s h =>
    obtain ⟨c, hc, hs⟩ := mkDefault_ok_iff.mp h
    subst hs
    exact inv_of_ucfr (v := []) hc
  | ctorSized c s h =>
    obtain ⟨rows, c', hr, hc, hs⟩ := mkSized_ok_iff.mp h
    subst hs
    have := inv_of_ucfr (v := (List.replicate rows nan : List α))
      (by rwa [List.length_replicate])
    exact this
  | ctorFlat v s h =>
    obtain ⟨c, hc, hs⟩ := fromFlat_ok_iff.mp h
    subst hs
    exact inv_of_ucfr hc
  | opAppend s u _ hu ih =>
    obtain ⟨su, sc, sv⟩ := s
    obtain ⟨h1, h2, h3⟩ := ih
    dsimp only at h1 h2 h3
    subst h1
    by_cases hz : su = 0
    · unfold append
      rw [if_pos hz]
      exact ⟨rfl, h2, h3⟩
    · unfold append
      rw [if_neg hz]
      refine ⟨rfl, ?_, fun h0 => absurd h0 hz⟩
      intro h0
      obtain ⟨hc, hlen⟩ := h2 h0
      constructor
      · show (0 : Int) ≤ sc + 1
        omega
      · show ((sv ++ u).length : Int) = (sc + 1) * (su : Int)
        rw [List.length_append, hu]
        push_cast
        rw [hlen]
        ring
  | opSet s i u s' _ hu hset ih =>
    obtain ⟨h1, h2, h3⟩ := ih
    unfold set at hset
    split at hset
    · exact absurd hset (by simp)
    · rename_i hok
      simp only [Except.ok.injEq] at hset
      subst hset
      refine ⟨h1, ?_, h3⟩
      intro h0
      obtain ⟨hc, hlen⟩ := h2 h0
      refine ⟨hc, ?_⟩
      have hi : (i : Int) < s.count_ := by
        rcases not_not.mp hok with h | h
        · rw [h1] at h; omega
        · exact h
      have hlenN : s.combined_vector_.length = s.count_.toNat * us := by
        have hcast : (s.combined_vector_.length : Int) =
            ((s.count_.toNat * us : Nat) : Int) := by
          push_cast
          rw [Int.toNat_of_nonneg hc]
          exact hlen
        exact_mod_cast hcast
      have hbound : i * us + us ≤ s.combined_vector_.length := by
        have hi1 : i + 1 ≤ s.count_.toNat := by omega
        calc i * us + us = (i + 1) * us := by ring
          _ ≤ s.count_.toNat * us := Nat.mul_le_mul_right us hi1
          _ = s.combined_vector_.length := hlenN.symm
      have hlennew : (s.combined_vector_.take (i * s.unit_size_) ++ u ++
          s.combined_vector_.drop (i * s.unit_size_ + u.length)).length =
            s.combined_vector_.length := by
        simp only [List.length_append, List.length_take, List.length_drop,
          h1, hu]
        omega
      simp only [hlennew]
      exact hlen
  | opAssign s v _ ih =>
    obtain ⟨su, sc, sv⟩ := s
    obtain ⟨h1, h2, h3⟩ := ih
    dsimp only at h1 h2 h3
    subst h1
    unfold assign
    cases hu : unitCountFromRows su v.length with
    | error e => exact ⟨rfl, h2, h3⟩
    | ok c => exact inv_of_ucfr hu

/-- Writing a block of length `u.length` at offset `r` and then reading it
back yields `u`. -/
theorem slice_write_self {α : Type} (l u : List α) (r : Nat)
    (hr : r ≤ l.length) :
    ((l.take r ++ u ++ l.drop (r + u.length)).drop r).take u.length = u := by
  have hA : (l.take r).length = r := by
    simp only [List.length_take]
    omega
  rw [List.append_assoc, List.drop_append_eq_append_drop, hA,
    Nat.sub_self, List.drop_zero]
  have h0 : (l.take r).drop r = [] :=
    List.drop_eq_nil_of_le (by omega)
  rw [h0, List.nil_append, List.take_left]

/-- Reading a block disjoint from the written block sees the original
list. -/
theorem slice_write_disjoint {α : Type} (l u : List α) (r n k : Nat)
    (hru : r + u.length ≤ l.length)
    (hdisj : n + k ≤ r ∨ r + u.length ≤ n) :
    ((l.take r ++ u ++ l.drop (r + u.length)).drop n).take k =
      (l.drop n).take k := by
  have hA : (l.take r).length = r := by
    simp only [List.length_take]
    omega
  rcases hdisj with h | h
  · rw [List.append_assoc, List.drop_append_eq_append_drop,
      List.take_append_eq_append_take, hA]
    have h1 : k ≤ ((l.take r).drop n).length := by
      simp only [List.length_drop, hA]
      omega
    rw [Nat.sub_eq_zero_of_le h1, List.take_zero, List.append_nil,
      List.drop_take, List.take_take]
    congr 1
    omega
  · rw [List.drop_append_eq_append_drop]
    have h0 : (l.take r ++ u).drop n = [] :=
      List.drop_eq_nil_of_le (by simp only [List.length_append, hA]; omega)
    rw [h0, List.nil_append, List.drop_drop]
    congr 2
    simp only [List.length_append, hA]
    omega

/-- `get` on a passing bound check returns the storage block. -/
theorem get_ok {α : Type} (s : NAryState α) (i : Nat)
    (h : s.unit_size_ = 0 ∨ (i : Int) < s.count_) :
    s.get i =
      .ok ((s.combined_vector_.drop (i * s.unit_size_)).take s.unit_size_) := by
  unfold get
  rw [if_neg (not_not_intro h)]

/-- `get` on a failing bound check throws `std::out_of_range`. -/
theorem get_err {α : Type} (s : NAryState α) (i : Nat)
    (h : ¬(s.unit_size_ = 0 ∨ (i : Int) < s.count_)) :
    s.get i = .error .outOfRange := by
  unfold get
  rw [if_pos h]

/-- `set` on a passing bound check overwrites the storage block. -/
theorem set_ok {α : Type} (s : NAryState α) (i : Nat) (u : List α)
    (h : s.unit_size_ = 0 ∨ (i : Int) < s.count_) :
    s.set i u =
      .ok { s with
            combined_vector_ :=
              s.combined_vector_.take (i * s.unit_size_) ++ u ++
                s.combined_vector_.drop (i * s.unit_size_ + u.length) } := by
  unfold set
  rw [if_neg (not_not_intro h)]

/-- `set` on a failing bound check throws `std::out_of_range`. -/
theorem set_err {α : Type} (s : NAryState α) (i : Nat) (u : List α)
    (h : ¬(s.unit_size_ = 0 ∨ (i : Int) < s.count_)) :
    s.set i u = .error .outOfRange := by
  unfold set
  rw [if_pos h]

/-- `append` for a non-null unit grows the storage at the tail and bumps
the count. -/
theorem append_pos {α : Type} (s : NAryState α) (u : List α)
    (h : ¬s.unit_size_ = 0) :
    s.append u =
      { s with
        count_ := s.count_ + 1,
        combined_vector_ := s.combined_vector_ ++ u } := by
  unfold append
  rw [if_neg h]

/-- Claim C1: for every instantiation with `unit_size > 0`, after any
sequence of public operations the storage length equals
`count() * unit_size` and `count() >= 0`. -/
theorem claim_C1 {α : Type} (nan : α) (us : Nat) (s : NAryState α)
    (hus : 0 < us) (h : Reachable nan us s) :
    0 ≤ s.count ∧ (s.combined_vector_.length : Int) = s.count * us := by
  obtain ⟨_, h2, _⟩ := reachable_inv h
  exact h2 hus

theorem claim_C1_witness :
    0 ≤ (NAryState.mk 2 1 [(5 : ℤ), 7]).count ∧
      ((NAryState.mk 2 1 [(5 : ℤ), 7]).combined_vector_.length : Int) =
        (NAryState.mk 2 1 [(5 : ℤ), 7]).count * (2 : Nat) :=
  claim_C1 (0 : ℤ) 2 _ (by decide)
    (Reachable.ctorFlat [5, 7] _ (by rfl))

/-- Claim C2: `toEigen` returns a copy of the current storage, which is
the concatenation of the flattened units in index order, and `size()`
returns the total row count of storage; concretely with unit size 3,
after appending `[1,2,3]` then `[4,5,6]`, flattening yields
`[1,2,3,4,5,6]`, `size() == 6`, `get(0) == [1,2,3]`, `get(1) == [4,5,6]`. -/
theorem claim_C2 :
    (∀ s : NAryState Scal,
      s.toEigen = s.combined_vector_ ∧ s.size = s.combined_vector_.length) ∧
    mkDefault Scal 3 = .ok ⟨3, 0, []⟩ ∧
    (((⟨3, 0, []⟩ : NAryState Scal).append
        [Scal.val 1, Scal.val 2, Scal.val 3]).append
        [Scal.val 4, Scal.val 5, Scal.val 6]).toEigen =
      [Scal.val 1, Scal.val 2, Scal.val 3,
       Scal.val 4, Scal.val 5, Scal.val 6] ∧
    (((⟨3, 0, []⟩ : NAryState Scal).append
        [Scal.val 1, Scal.val 2, Scal.val 3]).append
        [Scal.val 4, Scal.val 5, Scal.val 6]).size = 6 ∧
    (((⟨3, 0, []⟩ : NAryState Scal).append
        [Scal.val 1, Scal.val 2, Scal.val 3]).append
        [Scal.val 4, Scal.val 5, Scal.val 6]).get 0 =
      .ok [Scal.val 1, Scal.val 2, Scal.val 3] ∧
    (((⟨3, 0, []⟩ : NAryState Scal).append
        [Scal.val 1, Scal.val 2, Scal.val 3]).append
        [Scal.val 4, Scal.val 5, Scal.val 6]).get 1 =
      .ok [Scal.val 4, Scal.val 5, Scal.val 6] :=
  ⟨fun _ => ⟨rfl, rfl⟩, rfl, rfl, rfl, rfl, rfl⟩

/-- Claim C3: the row/count codec in both directions, on both success and
error paths, including the null-unit special cases. -/
theorem claim_C3 (us rows : Nat) (c : Int) :
    (0 < us → rows % us = 0 →
      unitCountFromRows us rows = .ok ((rows / us : Nat) : Int)) ∧
    (0 < us → rows % us ≠ 0 →
      unitCountFromRows us rows = .error .nonMultipleRowCount) ∧
    (us = 0 → unitCountFromRows us rows = .ok (-1)) ∧
    (0 ≤ c → rowsFromUnitCount us c = .ok (c.toNat * us) ∧
      ((c.toNat * us : Nat) : Int) = c * us) ∧
    (c < 0 → us = 0 → rowsFromUnitCount us c = .ok 0) ∧
    (c < 0 → 0 < us →
      rowsFromUnitCount us c = .error .negativeCountForNonNullUnit) := by
  refine ⟨?_, ?_, ?_, ?_, ?_, ?_⟩
  · intro h1 h2
    simp [unitCountFromRows, h1, h2]
  · intro h1 h2
    simp [unitCountFromRows, h1, h2]
  · intro h1
    simp [unitCountFromRows, h1]
  · intro h1
    constructor
    · simp [rowsFromUnitCount, h1]
    · push_cast
      rw [Int.toNat_of_nonneg h1]
  · intro h1 h2
    have h3 : ¬(c ≥ 0) := by omega
    simp [rowsFromUnitCount, h3, h2]
  · intro h1 h2
    have h3 : ¬(c ≥ 0) := by omega
    have h4 : us ≠ 0 := by omega
    simp [rowsFromUnitCount, h3, h4]

theorem claim_C3_witness :
    unitCountFromRows 3 6 = .ok 2 ∧
    unitCountFromRows 3 7 = .error .nonMultipleRowCount ∧
    unitCountFromRows 0 5 = .ok (-1) ∧
    rowsFromUnitCount 3 2 = .ok 6 ∧
    rowsFromUnitCount 0 (-4) = .ok 0 ∧
    rowsFromUnitCount 3 (-4) = .error .negativeCountForNonNullUnit :=
  ⟨(claim_C3 3 6 0).1 (by decide) (by decide),
   (claim_C3 3 7 0).2.1 (by decide) (by decide),
   (claim_C3 0 5 0).2.2.1 (by decide),
   ((claim_C3 3 0 2).2.2.2.1 (by decide)).1,
   (claim_C3 0 0 (-4)).2.2.2.2.1 (by decide) (by decide),
   (claim_C3 3 0 (-4)).2.2.2.2.2 (by decide) (by decide)⟩

/-- Claim C7: for a null-unit instantiation (`unit_size == 0`), `count()`
is `-1` after any sequence of public operations, and `append` is a no-op
leaving the state unchanged. -/
theorem claim_C7 {α : Type} (nan : α) (s : NAryState α)
    (h : Reachable nan 0 s) :
    s.count = -1 ∧ ∀ u : List α, s.append u = s := by
  obtain ⟨h1, _, h3⟩ := reachable_inv h
  refine ⟨h3 rfl, ?_⟩
  intro u
  unfold append
  rw [if_pos h1]

theorem claim_C7_witness :
    (NAryState.mk 0 (-1) ([] : List ℤ)).count = -1 ∧
      ∀ u : List ℤ, (NAryState.mk 0 (-1) ([] : List ℤ)).append u =
        NAryState.mk 0 (-1) ([] : List ℤ) :=
  claim_C7 (0 : ℤ) _ (Reachable.ctorDefault _ (by rfl))

/-- Claim C4: for `unit_size > 0` and any unit value `v`, `append v` grows
the storage by `unit_size` rows preserving the existing rows, writes the
flattened `v` into the new tail block, increments `count()` by 1, and a
subsequent `get (count() - 1)` returns `v`. -/
theorem claim_C4 {α : Type} (s : NAryState α) (us : Nat) (v : List α)
    (h1 : s.unit_size_ = us) (hus : 0 < us) (hv : v.length = us)
    (hc : 0 ≤ s.count_)
    (hlen : (s.combined_vector_.length : Int) = s.count_ * us) :
    (s.append v).combined_vector_ = s.combined_vector_ ++ v ∧
    (s.append v).count = s.count + 1 ∧
    (s.append v).size = s.size + us ∧
    (s.append v).get (((s.append v).count - 1).toNat) = .ok v := by
  obtain ⟨su, sc, sv⟩ := s
  dsimp only at h1 hc hlen
  subst h1
  have hlenN : sv.length = sc.toNat * su := by
    have hcast : (sv.length : Int) = ((sc.toNat * su : Nat) : Int) := by
      push_cast
      rw [Int.toNat_of_nonneg hc]
      exact hlen
    exact_mod_cast hcast
  rw [append_pos ⟨su, sc, sv⟩ v (show ¬su = 0 by omega)]
  refine ⟨rfl, rfl, ?_, ?_⟩
  · show (sv ++ v).length = sv.length + su
    rw [List.length_append, hv]
  · show get ⟨su, sc + 1, sv ++ v⟩ ((sc + 1 - 1).toNat) = .ok v
    have hg := get_ok (α := α) ⟨su, sc + 1, sv ++ v⟩ ((sc + 1 - 1).toNat)
      (Or.inr (show (((sc + 1 - 1).toNat : Nat) : Int) < sc + 1 by omega))
    rw [hg]
    congr 1
    dsimp only
    have hidx : (sc + 1 - 1).toNat * su = sv.length := by
      have h9 : (sc + 1 - 1).toNat = sc.toNat := by omega
      rw [h9, ← hlenN]
    rw [hidx, List.drop_left, ← hv, List.take_length]

theorem claim_C4_witness :
    ((NAryState.mk 3 1 [(1 : ℤ), 2, 3]).append [4, 5, 6]).combined_vector_ =
        [(1 : ℤ), 2, 3] ++ [4, 5, 6] ∧
      ((NAryState.mk 3 1 [(1 : ℤ), 2, 3]).append [4, 5, 6]).count =
        (NAryState.mk 3 1 [(1 : ℤ), 2, 3]).count + 1 ∧
      ((NAryState.mk 3 1 [(1 : ℤ), 2, 3]).append [4, 5, 6]).size =
        (NAryState.mk 3 1 [(1 : ℤ), 2, 3]).size + 3 ∧
      ((NAryState.mk 3 1 [(1 : ℤ), 2, 3]).append [4, 5, 6]).get
          ((((NAryState.mk 3 1 [(1 : ℤ), 2, 3]).append [4, 5, 6]).count -
            1).toNat) = .ok [4, 5, 6] :=
  claim_C4 (NAryState.mk 3 1 [(1 : ℤ), 2, 3]) 3 [4, 5, 6] rfl (by decide)
    (by decide) (by decide) (by decide)

/-- Claim C5: for a valid index `i` and unit value `v`, `set i v` succeeds,
a subsequent `get i` yields `v`, every other index `j` reads as before the
`set`, and `count()` is unchanged. -/
theorem claim_C5 {α : Type} (s : NAryState α) (us i : Nat) (v : List α)
    (h1 : s.unit_size_ = us) (hus : 0 < us) (hv : v.length = us)
    (hc : 0 ≤ s.count_)
    (hlen : (s.combined_vector_.length : Int) = s.count_ * us)
    (hi : (i : Int) < s.count_) :
    ∃ s', s.set i v = .ok s' ∧ s'.count = s.count ∧ s'.get i = .ok v ∧
      ∀ j : Nat, j ≠ i → s'.get j = s.get j := by
  obtain ⟨su, sc, sv⟩ := s
  dsimp only at h1 hc hlen hi
  subst h1
  have hlenN : sv.length = sc.toNat * su := by
    have hcast : (sv.length : Int) = ((sc.toNat * su : Nat) : Int) := by
      push_cast
      rw [Int.toNat_of_nonneg hc]
      exact hlen
    exact_mod_cast hcast
  have hbound : i * su + su ≤ sv.length := by
    rw [hlenN]
    calc i * su + su = (i + 1) * su := by ring
      _ ≤ sc.toNat * su := Nat.mul_le_mul_right su (by omega)
  refine ⟨⟨su, sc, sv.take (i * su) ++ v ++ sv.drop (i * su + v.length)⟩,
    set_ok ⟨su, sc, sv⟩ i v (Or.inr hi), rfl, ?_, ?_⟩
  · have hg := get_ok (α := α)
      ⟨su, sc, sv.take (i * su) ++ v ++ sv.drop (i * su + v.length)⟩ i
      (Or.inr hi)
    rw [hg]
    congr 1
    dsimp only
    rw [← hv]
    exact slice_write_self sv v (i * v.length) (by rw [hv]; omega)
  · intro j hj
    by_cases hjc : (j : Int) < sc
    · have hL := get_ok (α := α)
        ⟨su, sc, sv.take (i * su) ++ v ++ sv.drop (i * su + v.length)⟩ j
        (Or.inr hjc)
      have hR := get_ok (α := α) ⟨su, sc, sv⟩ j (Or.inr hjc)
      rw [hL, hR]
      congr 1
      dsimp only
      refine slice_write_disjoint sv v (i * su) (j * su) su
        (by rw [hv]; omega) ?_
      rcases lt_or_gt_of_ne hj with hji | hji
      · refine Or.inl ?_
        calc j * su + su = (j + 1) * su := by ring
          _ ≤ i * su := Nat.mul_le_mul_right su hji
      · refine Or.inr ?_
        rw [hv]
        calc i * su + su = (i + 1) * su := by ring
          _ ≤ j * su := Nat.mul_le_mul_right su hji
    · have hng : ¬(su = 0 ∨ (j : Int) < sc) := by
        rintro (h0 | h0)
        · omega
        · exact hjc h0
      have hL := get_err (α := α)
        ⟨su, sc, sv.take (i * su) ++ v ++ sv.drop (i * su + v.length)⟩ j hng
      have hR := get_err (α := α) ⟨su, sc, sv⟩ j hng
      rw [hL, hR]

theorem claim_C5_witness :
    ∃ s', (NAryState.mk 2 2 [(1 : ℤ), 2, 3, 4]).set 0 [8, 9] = .ok s' ∧
      s'.count = (NAryState.mk 2 2 [(1 : ℤ), 2, 3, 4]).count ∧
      s'.get 0 = .ok [8, 9] ∧
      ∀ j : Nat, j ≠ 0 →
        s'.get j = (NAryState.mk 2 2 [(1 : ℤ), 2, 3, 4]).get j :=
  claim_C5 (NAryState.mk 2 2 [(1 : ℤ), 2, 3, 4]) 2 0 [8, 9] rfl (by decide)
    (by decide) (by decide) (by decide) (by decide)

/-- Claim C6: for `unit_size > 0`, `get i` and `set i u` throw
`std::out_of_range` exactly when `i >= count()`; for `unit_size == 0` the
bound check is skipped and they never throw for any index. -/
theorem claim_C6 {α : Type} (s : NAryState α) (i : Nat) (u : List α) :
    (0 < s.unit_size_ →
      ((s.get i = .error .outOfRange ↔ s.count ≤ (i : Int)) ∧
       (s.set i u = .error .outOfRange ↔ s.count ≤ (i : Int)))) ∧
    (s.unit_size_ = 0 → (s.get i).isOk = true ∧ (s.set i u).isOk = true) := by
  constructor
  · intro hus
    by_cases h0 : (i : Int) < s.count_
    · rw [get_ok _ _ (Or.inr h0), set_ok _ _ _ (Or.inr h0)]
      simp only [reduceCtorEq, false_iff, not_le, count]
      exact ⟨h0, h0⟩
    · have hng : ¬(s.unit_size_ = 0 ∨ (i : Int) < s.count_) := by
        rintro (h | h)
        · omega
        · exact h0 h
      rw [get_err _ _ hng, set_err _ _ _ hng]
      simp only [true_iff, count]
      exact ⟨by omega, by omega⟩
  · intro h0
    rw [get_ok _ _ (Or.inl h0), set_ok _ _ _ (Or.inl h0)]
    exact ⟨rfl, rfl⟩

theorem claim_C6_witness :
    ((NAryState.mk 2 1 [(1 : ℤ), 2]).get 5 = .error .outOfRange ↔
      (NAryState.mk 2 1 [(1 : ℤ), 2]).count ≤ (5 : Nat)) ∧
    ((NAryState.mk 0 (-1) ([] : List ℤ)).get 7).isOk = true :=
  ⟨((claim_C6 (NAryState.mk 2 1 [(1 : ℤ), 2]) 5 [9, 9]).1 (by decide)).1,
   ((claim_C6 (NAryState.mk 0 (-1) ([] : List ℤ)) 7 []).2 (by decide)).1⟩

/-- Claim C8: sized construction: for `unit_size > 0` and `count >= 0` it
yields `count() == count` and `size() == count * unit_size` with every
scalar equal to the NaN fill; for `unit_size == 0` the codec round trip
forces `count() == -1` regardless of the requested count. -/
theorem claim_C8 {α : Type} (nan : α) (us : Nat) (c : Int) :
    (0 < us → 0 ≤ c →
      mkSized nan us c = .ok ⟨us, c, List.replicate (c.toNat * us) nan⟩ ∧
      (⟨us, c, List.replicate (c.toNat * us) nan⟩ : NAryState α).count = c ∧
      (⟨us, c, List.replicate (c.toNat * us) nan⟩ : NAryState α).size =
        c.toNat * us ∧
      ∀ x ∈ (⟨us, c, List.replicate (c.toNat * us) nan⟩ :
          NAryState α).combined_vector_, x = nan) ∧
    (us = 0 → mkSized nan us c = .ok ⟨0, -1, []⟩) := by
  constructor
  · intro hus hc
    have h1 : rowsFromUnitCount us c = .ok (c.toNat * us) := by
      simp [rowsFromUnitCount, hc]
    have h2 : unitCountFromRows us (c.toNat * us) = .ok c := by
      have hm : c.toNat * us % us = 0 := Nat.mul_mod_left _ _
      unfold unitCountFromRows
      rw [if_pos hus, if_neg (by omega)]
      congr 1
      push_cast
      rw [Int.toNat_of_nonneg hc]
      exact Int.mul_ediv_cancel _ (by omega)
    refine ⟨?_, rfl, by simp [size], ?_⟩
    · simp only [mkSized, h1, h2]
    · intro x hx
      exact List.eq_of_mem_replicate hx
  · intro h0
    subst h0
    have h1 : rowsFromUnitCount 0 c = .ok 0 := by
      by_cases hc0 : 0 ≤ c <;> simp [rowsFromUnitCount, hc0]
    simp [mkSized, h1, unitCountFromRows]

theorem claim_C8_witness :
    mkSized Scal.nan 2 3 = .ok ⟨2, 3, List.replicate 6 Scal.nan⟩ ∧
    mkSized Scal.nan 0 5 = .ok ⟨0, -1, []⟩ :=
  ⟨((claim_C8 Scal.nan 2 3).1 (by decide) (by decide)).1,
   (claim_C8 Scal.nan 0 5).2 rfl⟩

/-- Claim C9: assignment from a flat vector whose length is not a multiple
of a positive `unit_size` throws a domain error before any write, leaving
`count_` and the storage exactly as they were; on success the storage is
replaced and `count_` becomes `length / unit_size`. -/
theorem claim_C9 {α : Type} (s : NAryState α) (v : List α)
    (hus : 0 < s.unit_size_) :
    (v.length % s.unit_size_ ≠ 0 →
      s.assign v = (s, some Err.nonMultipleRowCount)) ∧
    (v.length % s.unit_size_ = 0 →
      s.assign v =
        ({ s with
            count_ := ((v.length / s.unit_size_ : Nat) : Int),
            combined_vector_ := v }, none)) := by
  constructor
  · intro hm
    have h1 : unitCountFromRows s.unit_size_ v.length =
        .error .nonMultipleRowCount := by
      simp [unitCountFromRows, hus, hm]
    simp [assign, h1]
  · intro hm
    have h1 : unitCountFromRows s.unit_size_ v.length =
        .ok ((v.length / s.unit_size_ : Nat) : Int) := by
      simp [unitCountFromRows, hus, hm]
    simp [assign, h1]

theorem claim_C9_witness :
    (NAryState.mk 2 1 [(7 : ℤ), 8]).assign [1, 2, 3] =
      (NAryState.mk 2 1 [(7 : ℤ), 8], some Err.nonMultipleRowCount) ∧
    (NAryState.mk 2 1 [(7 : ℤ), 8]).assign [1, 2, 3, 4] =
      (NAryState.mk 2 2 [(1 : ℤ), 2, 3, 4], none) :=
  ⟨(claim_C9 (NAryState.mk 2 1 [(7 : ℤ), 8]) [1, 2, 3] (by decide)).1
      (by decide),
   (claim_C9 (NAryState.mk 2 1 [(7 : ℤ), 8]) [1, 2, 3, 4] (by decide)).2
      (by decide)⟩

/-- Claim C10: every storage block access of `get`/`set` is in bounds:
for `unit_size > 0`, a passing bound check together with the length
invariant puts the block `[i*unit_size, (i+1)*unit_size)` inside
`[0, size())`; for `unit_size == 0` the accessed block starts at row 0 and
is empty, so no out-of-bounds access occurs. -/
theorem claim_C10 {α : Type} (s : NAryState α) (i : Nat) (u : List α) :
    (0 < s.unit_size_ → 0 ≤ s.count_ →
      (s.combined_vector_.length : Int) = s.count_ * s.unit_size_ →
      ((s.get i).isOk = true ∨ (s.set i u).isOk = true) →
      i * s.unit_size_ + s.unit_size_ ≤ s.size) ∧
    (s.unit_size_ = 0 → i * s.unit_size_ = 0 ∧ s.get i = .ok []) := by
  constructor
  · intro hus hc hlen hok
    have hi : (i : Int) < s.count_ := by
      by_contra hno
      have hng : ¬(s.unit_size_ = 0 ∨ (i : Int) < s.count_) := by
        rintro (h0 | h0)
        · omega
        · exact hno h0
      rcases hok with hok | hok
      · rw [get_err _ _ hng] at hok
        simp [Except.isOk, Except.toBool] at hok
      · rw [set_err _ _ _ hng] at hok
        simp [Except.isOk, Except.toBool] at hok
    have hlenN : s.combined_vector_.length = s.count_.toNat * s.unit_size_ := by
      have hcast : (s.combined_vector_.length : Int) =
          ((s.count_.toNat * s.unit_size_ : Nat) : Int) := by
        push_cast
        rw [Int.toNat_of_nonneg hc]
        exact hlen
      exact_mod_cast hcast
    show i * s.unit_size_ + s.unit_size_ ≤ s.combined_vector_.length
    rw [hlenN]
    calc i * s.unit_size_ + s.unit_size_ = (i + 1) * s.unit_size_ := by ring
      _ ≤ s.count_.toNat * s.unit_size_ :=
        Nat.mul_le_mul_right s.unit_size_ (by omega)
  · intro h0
    refine ⟨by rw [h0, Nat.mul_zero], ?_⟩
    rw [get_ok _ _ (Or.inl h0), h0]
    simp

theorem claim_C10_witness :
    1 * 2 + 2 ≤ (NAryState.mk 2 2 [(1 : ℤ), 2, 3, 4]).size ∧
    (3 * 0 = 0 ∧ (NAryState.mk 0 (-1) ([] : List ℤ)).get 3 = .ok []) :=
  ⟨(claim_C10 (NAryState.mk 2 2 [(1 : ℤ), 2, 3, 4]) 1 []).1 (by decide)
      (by decide) (by decide) (Or.inl (by decide)),
   (claim_C10 (NAryState.mk 0 (-1) ([] : List ℤ)) 3 []).2 (by decide)⟩

end NAryState

end DrakeNAry
